import Mathlib

set_option maxRecDepth 16384

/-!
Verification development for the epgBuilder stream relay and
schedule-resolution engine (src/app/server.js, with the older server
variant embedded in src/entrypoint.sh).

Bytes are modelled as natural numbers, byte buffers as lists of naturals,
and instants as milliseconds since the Unix epoch (naturals).  Fallible
JavaScript date parsing is modelled explicitly; an invalid JS Date (NaN)
makes every comparison false, which the embedding mirrors.
-/

/-! ## Packet realigner (src/app/server.js lines 101-119)

The upstream data handler appends each chunk to an accumulation buffer and
then loops: while at least 188 bytes are buffered, it looks for the first
sync byte 0x47; if none exists the whole buffer is discarded; otherwise
bytes before the sync byte are dropped, and if 188 bytes remain the
leading 188 bytes are emitted as one packet and removed. -/

def TS_PACKET_SIZE : Nat := 188

/-- Model of Buffer.indexOf(0x47): index of the first sync byte. -/
def findSync : List Nat → Option Nat
  | [] => none
  | b :: bs => if b = 0x47 then some 0 else (findSync bs).map (· + 1)

/-- One run of the while loop of the data handler, written with a fuel
parameter so that the definition is structurally recursive and computable
by reduction.  Each iteration consumes at least 188 bytes, so fuel equal
to the buffer length is always sufficient (a fuel of zero is never reached
from processBuffer). -/
def processBufferAux : Nat → List Nat → List (List Nat) × List Nat
  | 0, buffer => ([], buffer)
  | fuel + 1, buffer =>
    if TS_PACKET_SIZE ≤ buffer.length then
      match findSync buffer with
      | none => ([], [])
      | some i =>
        if (buffer.drop i).length < TS_PACKET_SIZE then ([], buffer.drop i)
        else
          ((buffer.drop i).take TS_PACKET_SIZE ::
              (processBufferAux fuel ((buffer.drop i).drop TS_PACKET_SIZE)).1,
            (processBufferAux fuel ((buffer.drop i).drop TS_PACKET_SIZE)).2)
    else ([], buffer)

/-- The while loop of the data handler: emitted packets and the buffer
kept for the next chunk. -/
def processBuffer (buffer : List Nat) : List (List Nat) × List Nat :=
  processBufferAux buffer.length buffer

/-- The realigner over a whole sequence of incoming chunks, starting from
a given accumulated buffer (streamTS starts from the empty buffer). -/
def runRealigner : List (List Nat) → List Nat → List (List Nat) × List Nat
  | [], buf => ([], buf)
  | c :: cs, buf =>
    let r := processBuffer (buf ++ c)
    let r2 := runRealigner cs r.2
    (r.1 ++ r2.1, r2.2)

/-! ### Realigner lemmas -/

theorem findSync_lt_length : ∀ (l : List Nat) (i : Nat), findSync l = some i → i < l.length := by
  intro l
  induction l with
  | nil => intro i h; simp [findSync] at h
  | cons b bs ih =>
    intro i h
    simp only [findSync] at h
    by_cases hb : b = 0x47
    · simp [hb] at h
      subst h
      simp only [List.length_cons]
      omega
    · simp [hb, Option.map_eq_some'] at h
      obtain ⟨j, hj, hji⟩ := h
      have hlt := ih j hj
      subst hji
      simp only [List.length_cons]
      omega

theorem findSync_drop_head : ∀ (l : List Nat) (i : Nat), findSync l = some i →
    (l.drop i).head? = some 0x47 := by
  intro l
  induction l with
  | nil => intro i h; simp [findSync] at h
  | cons b bs ih =>
    intro i h
    simp only [findSync] at h
    by_cases hb : b = 0x47
    · simp [hb] at h
      subst h; simp [hb]
    · simp [hb, Option.map_eq_some'] at h
      obtain ⟨j, hj, hji⟩ := h
      subst hji
      simpa using ih j hj

theorem findSync_eq_none (l : List Nat) (h : ∀ x ∈ l, x ≠ 0x47) : findSync l = none := by
  induction l with
  | nil => rfl
  | cons b bs ih =>
    simp only [findSync]
    have hb : b ≠ 0x47 := h b (by simp)
    simp [hb, ih (fun x hx => h x (by simp [hx]))]

theorem findSync_append_sync (g rest : List Nat) (h : ∀ x ∈ g, x ≠ 0x47) :
    findSync (g ++ 0x47 :: rest) = some g.length := by
  induction g with
  | nil => simp [findSync]
  | cons b bs ih =>
    have hb : b ≠ 0x47 := h b (by simp)
    have hbs := ih (fun x hx => h x (by simp [hx]))
    simp [findSync, hb, hbs]

theorem head?_take (l : List Nat) (n : Nat) (hn : 0 < n) : (l.take n).head? = l.head? := by
  cases l with
  | nil => simp
  | cons a as =>
    cases n with
    | zero => omega
    | succ m => simp

/-- Every packet produced by the loop has length 188 and starts with 0x47,
for any fuel and any buffer contents. -/
theorem processBufferAux_packets : ∀ (fuel : Nat) (buffer : List Nat) (p : List Nat),
    p ∈ (processBufferAux fuel buffer).1 → p.length = 188 ∧ p.head? = some 0x47 := by
  intro fuel
  induction fuel with
  | zero => intro buffer p hp; simp [processBufferAux] at hp
  | succ f ih =>
    intro buffer p hp
    simp only [processBufferAux] at hp
    split at hp
    · split at hp
      · simp at hp
      · rename_i i hfs
        split at hp
        · simp at hp
        · rename_i hshort
          simp only [List.mem_cons] at hp
          cases hp with
          | inl hp =>
            subst hp
            constructor
            · rw [List.length_take]
              simp only [TS_PACKET_SIZE] at hshort ⊢
              omega
            · rw [head?_take _ _ (by simp [TS_PACKET_SIZE])]
              exact findSync_drop_head buffer i hfs
          | inr hp => exact ih _ p hp
    · simp at hp

theorem runRealigner_packets : ∀ (chunks : List (List Nat)) (buf : List Nat) (p : List Nat),
    p ∈ (runRealigner chunks buf).1 → p.length = 188 ∧ p.head? = some 0x47 := by
  intro chunks
  induction chunks with
  | nil => intro buf p hp; simp [runRealigner] at hp
  | cons c cs ih =>
    intro buf p hp
    simp only [runRealigner, List.mem_append] at hp
    cases hp with
    | inl hp => exact processBufferAux_packets _ _ p hp
    | inr hp => exact ih _ p hp

/-- A single well-formed transport packet: sync byte followed by 187 zero bytes. -/
def pkt1 : List Nat := 0x47 :: List.replicate 187 0

/-- Claim C1: for every sequence of input byte chunks fed to the packet
realignment loop, every packet it emits to the client has length exactly
188 and its first byte is the sync byte 0x47. -/
theorem C1_realigner_emits_aligned_packets (chunks : List (List Nat)) (p : List Nat)
    (hp : p ∈ (runRealigner chunks []).1) : p.length = 188 ∧ p.head? = some 0x47 :=
  runRealigner_packets chunks [] p hp

theorem C1_witness :
    pkt1 ∈ (runRealigner [pkt1] []).1 ∧ pkt1.length = 188 ∧ pkt1.head? = some 0x47 :=
  ⟨by decide, C1_realigner_emits_aligned_packets [pkt1] pkt1 (by decide)⟩

/-! ### Aligned input and leading garbage (claim C6) -/

theorem processBufferAux_nosync : ∀ (fuel : Nat) (g : List Nat),
    (∀ x ∈ g, x ≠ 0x47) → (processBufferAux fuel g).1 = [] := by
  intro fuel g hg
  cases fuel with
  | zero => rfl
  | succ f =>
    simp only [processBufferAux]
    by_cases h : TS_PACKET_SIZE ≤ g.length
    · simp [h, findSync_eq_none g hg]
    · simp [h]

theorem processBufferAux_step (f : Nat) (buffer : List Nat) (i : Nat)
    (hcond : TS_PACKET_SIZE ≤ buffer.length)
    (hsync : findSync buffer = some i)
    (hlong : ¬ (buffer.drop i).length < TS_PACKET_SIZE) :
    processBufferAux (f + 1) buffer =
      ((buffer.drop i).take TS_PACKET_SIZE ::
          (processBufferAux f ((buffer.drop i).drop TS_PACKET_SIZE)).1,
        (processBufferAux f ((buffer.drop i).drop TS_PACKET_SIZE)).2) := by
  simp only [processBufferAux, hsync]
  rw [if_pos hcond, if_neg hlong]

theorem processBufferAux_aligned : ∀ (ps : List (List Nat)) (fuel : Nat),
    (∀ p ∈ ps, p.length = 188 ∧ p.head? = some 0x47) → ps.flatten.length ≤ fuel →
    processBufferAux fuel ps.flatten = (ps, []) := by
  intro ps
  induction ps with
  | nil =>
    intro fuel _ _
    cases fuel with
    | zero => rfl
    | succ f => simp [processBufferAux, TS_PACKET_SIZE]
  | cons p ps ih =>
    intro fuel h hf
    obtain ⟨hp1, hp2⟩ := h p (by simp)
    obtain ⟨pt, rfl⟩ : ∃ pt, p = 0x47 :: pt := by
      cases p with
      | nil => simp at hp2
      | cons a pt =>
        simp only [List.head?_cons, Option.some.injEq] at hp2
        exact ⟨pt, by rw [hp2]⟩
    rw [List.flatten_cons] at hf ⊢
    have hlen : ((0x47 :: pt) ++ ps.flatten).length = 188 + ps.flatten.length := by
      rw [List.length_append, hp1]
    cases fuel with
    | zero => rw [hlen] at hf; omega
    | succ f =>
      have hcond : TS_PACKET_SIZE ≤ ((0x47 :: pt) ++ ps.flatten).length := by
        rw [hlen]; simp only [TS_PACKET_SIZE]; omega
      have hsync : findSync ((0x47 :: pt) ++ ps.flatten) = some 0 := by
        simp [findSync]
      have hnshort : ¬ (((0x47 :: pt) ++ ps.flatten).drop 0).length < TS_PACKET_SIZE := by
        rw [List.drop_zero, hlen]; simp only [TS_PACKET_SIZE]; omega
      rw [processBufferAux_step f _ 0 hcond hsync hnshort]
      simp only [List.drop_zero]
      have htake : ((0x47 :: pt) ++ ps.flatten).take TS_PACKET_SIZE = 0x47 :: pt := by
        rw [show TS_PACKET_SIZE = (0x47 :: pt).length from hp1.symm]
        exact List.take_left _ _
      have hdrop : ((0x47 :: pt) ++ ps.flatten).drop TS_PACKET_SIZE = ps.flatten := by
        rw [show TS_PACKET_SIZE = (0x47 :: pt).length from hp1.symm]
        exact List.drop_left _ _
      rw [htake, hdrop, ih f (fun q hq => h q (by simp [hq])) (by rw [hlen] at hf; omega)]

theorem processBufferAux_garbage : ∀ (ps : List (List Nat)) (g : List Nat) (fuel : Nat),
    (∀ x ∈ g, x ≠ 0x47) → (∀ p ∈ ps, p.length = 188 ∧ p.head? = some 0x47) →
    (g ++ ps.flatten).length ≤ fuel →
    (processBufferAux fuel (g ++ ps.flatten)).1 = ps := by
  intro ps g fuel hg hps hf
  cases ps with
  | nil =>
    simp only [List.flatten_nil, List.append_nil]
    exact processBufferAux_nosync fuel g hg
  | cons p ps =>
    obtain ⟨hp1, hp2⟩ := hps p (by simp)
    obtain ⟨pt, rfl⟩ : ∃ pt, p = 0x47 :: pt := by
      cases p with
      | nil => simp at hp2
      | cons a pt =>
        simp only [List.head?_cons, Option.some.injEq] at hp2
        exact ⟨pt, by rw [hp2]⟩
    rw [List.flatten_cons] at hf ⊢
    have hlen : (g ++ ((0x47 :: pt) ++ ps.flatten)).length
        = g.length + (188 + ps.flatten.length) := by
      rw [List.length_append, List.length_append, hp1]
    cases fuel with
    | zero => rw [hlen] at hf; omega
    | succ f =>
      have hcond : TS_PACKET_SIZE ≤ (g ++ ((0x47 :: pt) ++ ps.flatten)).length := by
        rw [hlen]; simp only [TS_PACKET_SIZE]; omega
      have hsync : findSync (g ++ ((0x47 :: pt) ++ ps.flatten)) = some g.length := by
        have h2 := findSync_append_sync g (pt ++ ps.flatten) hg
        simpa using h2
      have hdropg : (g ++ ((0x47 :: pt) ++ ps.flatten)).drop g.length
          = (0x47 :: pt) ++ ps.flatten := List.drop_left _ _
      have hnshort : ¬ ((g ++ ((0x47 :: pt) ++ ps.flatten)).drop g.length).length
          < TS_PACKET_SIZE := by
        rw [hdropg, List.length_append, hp1]; simp only [TS_PACKET_SIZE]; omega
      rw [processBufferAux_step f _ g.length hcond hsync hnshort, hdropg]
      have htake : ((0x47 :: pt) ++ ps.flatten).take TS_PACKET_SIZE = 0x47 :: pt := by
        rw [show TS_PACKET_SIZE = (0x47 :: pt).length from hp1.symm]
        exact List.take_left _ _
      have hdrop : ((0x47 :: pt) ++ ps.flatten).drop TS_PACKET_SIZE = ps.flatten := by
        rw [show TS_PACKET_SIZE = (0x47 :: pt).length from hp1.symm]
        exact List.drop_left _ _
      rw [htake, hdrop,
        processBufferAux_aligned ps f (fun q hq => hps q (by simp [hq]))
          (by rw [hlen] at hf; omega)]

/-- Claim C6, counterexample: one garbage byte that happens to equal the
sync byte 0x47, prepended to a single well-formed packet, shifts the
alignment: the loop does not emit the original packet, so prepending
arbitrary garbage does not always yield the same packets. -/
theorem C6_counterexample : (runRealigner [0x47 :: pkt1] []).1 ≠ [pkt1] := by decide

/-- Claim C6, amended: feeding a concatenation of N well-formed aligned
188-byte packets as one chunk emits exactly those N packets byte-identical
to the input, and prepending K garbage bytes none of which equals the sync
byte 0x47 yields the same N packets with the garbage dropped.  (Garbage
containing 0x47 can shift the alignment, as the counterexample shows.) -/
theorem C6_aligned_roundtrip_and_garbage (ps : List (List Nat)) (g : List Nat)
    (hps : ∀ p ∈ ps, p.length = 188 ∧ p.head? = some 0x47)
    (hg : ∀ x ∈ g, x ≠ 0x47) :
    (runRealigner [ps.flatten] []).1 = ps ∧ (runRealigner [g ++ ps.flatten] []).1 = ps := by
  constructor
  · simp only [runRealigner, processBuffer, List.nil_append, List.append_nil]
    rw [processBufferAux_aligned ps ps.flatten.length hps (le_refl _)]
  · simp only [runRealigner, processBuffer, List.nil_append, List.append_nil]
    rw [processBufferAux_garbage ps g (g ++ ps.flatten).length hg hps (le_refl _)]

theorem C6_witness :
    (∀ p ∈ [pkt1], p.length = 188 ∧ p.head? = some 0x47) ∧ (∀ x ∈ [0], x ≠ 0x47) ∧
    (runRealigner [List.flatten [pkt1]] []).1 = [pkt1] ∧
    (runRealigner [[0] ++ List.flatten [pkt1]] []).1 = [pkt1] :=
  ⟨by decide, by decide,
    C6_aligned_roundtrip_and_garbage [pkt1] [0] (by decide) (by decide)⟩

/-! ## Upstream fetcher (src/app/server.js lines 71-143, and the older
variant in src/entrypoint.sh lines 52-119)

An upstream is modelled as the scripted list of HTTP responses the remote
side returns to the successive requests: a 3xx response carrying a
Location header is a redirect, every other response is terminal with its
status code.  An empty script means the request never receives a response
(the session just stays open). -/

inductive Response where
  | redirect (location : String)
  | terminal (status : Nat)
deriving DecidableEq

inductive FetchOutcome where
  | success (status : Nat) (finalUrl : String)
  | badGateway (status : Nat)
  | tooManyRedirects
  | pending
deriving DecidableEq

/-- The fetchStream closure of src/app/server.js: follows every redirect
with no hop counter, accepts 200 and 206, and treats any other terminal
status as Bad Gateway. -/
def fetchStreamJS : List Response → String → FetchOutcome
  | [], _ => FetchOutcome.pending
  | Response.redirect loc :: rest, _ => fetchStreamJS rest loc
  | Response.terminal s :: _, u =>
    if s = 200 ∨ s = 206 then FetchOutcome.success s u else FetchOutcome.badGateway s

/-- The streamTS fetch recursion of the older variant in src/entrypoint.sh:
a call entered with redirectCount already at MAX_REDIRECTS = 5 fails with
Too many redirects before issuing a request; a redirect response re-enters
with the counter incremented; only 200 is accepted. -/
def streamTSFetchSh (resp : List Response) (u : String) (count : Nat) : FetchOutcome :=
  if 5 ≤ count then FetchOutcome.tooManyRedirects
  else
    match resp with
    | [] => FetchOutcome.pending
    | Response.redirect loc :: rest => streamTSFetchSh rest loc (count + 1)
    | Response.terminal s :: _ =>
      if s = 200 then FetchOutcome.success s u else FetchOutcome.badGateway s

/-- Claim C2, counterexample: the current fetcher follows a chain of six
redirects and succeeds on the seventh response, instead of terminating
with TooManyRedirects when the sixth redirect is received. -/
theorem C2_counterexample :
    fetchStreamJS (List.replicate 6 (Response.redirect "b") ++ [Response.terminal 200]) "a"
      = FetchOutcome.success 200 "b" ∧
    FetchOutcome.success 200 "b" ≠ FetchOutcome.tooManyRedirects := by
  constructor
  · rfl
  · decide

theorem fetchStreamJS_never_tooMany : ∀ (rs : List Response) (u : String),
    fetchStreamJS rs u ≠ FetchOutcome.tooManyRedirects := by
  intro rs
  induction rs with
  | nil => intro u h; simp [fetchStreamJS] at h
  | cons r rest ih =>
    intro u h
    cases r with
    | redirect loc => exact ih loc h
    | terminal s =>
      simp only [fetchStreamJS] at h
      by_cases hs : s = 200 ∨ s = 206
      · simp [hs] at h
      · simp [hs] at h

theorem fetchStreamJS_unbounded : ∀ (n : Nat) (loc u : String),
    fetchStreamJS (List.replicate n (Response.redirect loc) ++ [Response.terminal 200]) u
      = FetchOutcome.success 200 (if n = 0 then u else loc) := by
  intro n
  induction n with
  | zero => intro loc u; rfl
  | succ m ih =>
    intro loc u
    simp only [List.replicate_succ, List.cons_append, fetchStreamJS, List.append_eq]
    rw [ih loc loc]
    cases m with
    | zero => rfl
    | succ k => rfl

theorem streamTSFetchSh_guard : ∀ (rs : List Response) (u : String) (c : Nat),
    5 ≤ c → streamTSFetchSh rs u c = FetchOutcome.tooManyRedirects := by
  intro rs u c hc
  rw [streamTSFetchSh.eq_def, if_pos hc]

theorem streamTSFetchSh_count : ∀ (k c : Nat) (rest : List Response) (loc u : String),
    c + k = 5 → streamTSFetchSh (List.replicate k (Response.redirect loc) ++ rest) u c
      = FetchOutcome.tooManyRedirects := by
  intro k
  induction k with
  | zero =>
    intro c rest loc u hck
    simp only [List.replicate_zero, List.nil_append]
    exact streamTSFetchSh_guard rest u c (by omega)
  | succ m ih =>
    intro c rest loc u hck
    have hnc : ¬ 5 ≤ c := by omega
    rw [streamTSFetchSh.eq_def, if_neg hnc]
    simp only [List.replicate_succ, List.cons_append]
    exact ih (c + 1) rest loc loc (by omega)

theorem streamTSFetchSh_five_redirects : ∀ (rest : List Response) (loc u : String),
    streamTSFetchSh (List.replicate 5 (Response.redirect loc) ++ rest) u 0
      = FetchOutcome.tooManyRedirects := by
  intro rest loc u
  exact streamTSFetchSh_count 5 0 rest loc u rfl

/-- Claim C2, amended: the current fetcher (fetchStream in
src/app/server.js) imposes no redirect bound at all: it follows a chain of
n redirects for every n and never produces a TooManyRedirects outcome.
Only the older variant embedded in src/entrypoint.sh bounds redirects: a
call entered with redirectCount of 5 (reached after following five
redirect responses from an initial count of 0) fails with Too many
redirects without issuing a further request. -/
theorem C2_no_bound_in_current_bounded_in_old (n : Nat) (loc u : String)
    (rs : List Response) (rest : List Response) (c : Nat) (hc : 5 ≤ c) :
    fetchStreamJS (List.replicate n (Response.redirect loc) ++ [Response.terminal 200]) u
      = FetchOutcome.success 200 (if n = 0 then u else loc) ∧
    fetchStreamJS rs u ≠ FetchOutcome.tooManyRedirects ∧
    streamTSFetchSh rs u c = FetchOutcome.tooManyRedirects ∧
    streamTSFetchSh (List.replicate 5 (Response.redirect loc) ++ rest) u 0
      = FetchOutcome.tooManyRedirects :=
  ⟨fetchStreamJS_unbounded n loc u, fetchStreamJS_never_tooMany rs u,
    streamTSFetchSh_guard rs u c hc, streamTSFetchSh_five_redirects rest loc u⟩

theorem C2_witness :
    (5 : Nat) ≤ 5 ∧
    (fetchStreamJS (List.replicate 2 (Response.redirect "b") ++ [Response.terminal 200]) "a"
        = FetchOutcome.success 200 (if 2 = 0 then "a" else "b") ∧
      fetchStreamJS [Response.terminal 200] "a" ≠ FetchOutcome.tooManyRedirects ∧
      streamTSFetchSh [Response.terminal 200] "a" 5 = FetchOutcome.tooManyRedirects ∧
      streamTSFetchSh (List.replicate 5 (Response.redirect "b") ++ []) "a" 0
        = FetchOutcome.tooManyRedirects) :=
  ⟨by decide,
    C2_no_bound_in_current_bounded_in_old 2 "b" "a" [Response.terminal 200] [] 5 (by decide)⟩

/-! ## Relay session (streamTS, src/app/server.js lines 36-146)

The client response object is modelled by the status code of the first
writeHead, whether headers have been sent, the body bytes written in
order, the text fragments passed to res.end, and whether the response has
ended.  streamTS writes a 200 header and two synthesized packets before
the upstream request is even issued; afterwards the fetch loop follows
redirects, rejects non-200/206 statuses with a guarded 502 writeHead plus
a Bad Gateway trailer, and on success relays the realigned packets of the
upstream data chunks and ends the response at upstream end-of-stream. -/

structure SessionState where
  status : Option Nat
  headersSent : Bool
  body : List Nat
  trailer : List String
  ended : Bool
deriving DecidableEq

def sessionStart : SessionState :=
  { status := none, headersSent := false, body := [], trailer := [], ended := false }

/-- res.writeHead: records the status of the first header write.  Call
sites in the source either write on a fresh response or guard the call
with res.headersSent, which the model mirrors defensively. -/
def resWriteHead (code : Nat) (st : SessionState) : SessionState :=
  if st.headersSent then st else { st with status := some code, headersSent := true }

/-- res.write of a byte buffer. -/
def resWrite (bytes : List Nat) (st : SessionState) : SessionState :=
  { st with body := st.body ++ bytes }

/-- res.end with a text payload. -/
def resEndText (t : String) (st : SessionState) : SessionState :=
  { st with trailer := st.trailer ++ [t], ended := true }

/-- res.end with no payload. -/
def resEnd (st : SessionState) : SessionState :=
  { st with ended := true }

/-- The two synthesized packets: a 376-byte zero buffer with the PAT
header bytes at offsets 0-3 and the PMT header bytes at offsets 188-191,
exactly as streamTS builds them. -/
def initialPackets : List Nat :=
  ((((((((List.replicate 376 0).set 0 0x47).set 1 0x40).set 2 0x00).set 3 0x10).set
      188 0x47).set 189 0x50).set 190 0x00).set 191 0x10

/-- The upstream data handlers: all data chunks are realigned and written
as packets, then the end handler calls res.end. -/
def streamData (chunks : List (List Nat)) (st : SessionState) : SessionState :=
  resEnd (resWrite (runRealigner chunks []).1.flatten st)

/-- The fetchStream response handler of streamTS: redirects recurse,
non-200/206 statuses write a guarded 502 and end with Bad Gateway, and a
success streams the data chunks.  An exhausted script means no response
ever arrives and the session state is left as is. -/
def fetchLoop : List Response → List (List Nat) → SessionState → SessionState
  | [], _, st => st
  | Response.redirect _ :: rest, chunks, st => fetchLoop rest chunks st
  | Response.terminal s :: _, chunks, st =>
    if s ≠ 200 ∧ s ≠ 206 then
      resEndText "Bad Gateway" (if st.headersSent then st else resWriteHead 502 st)
    else streamData chunks st

/-- One whole streamTS session: headers and initial packets first, then
the upstream fetch. -/
def streamTS_run (upstream : List Response) (chunks : List (List Nat)) : SessionState :=
  fetchLoop upstream chunks (resWrite initialPackets (resWriteHead 200 sessionStart))

theorem fetchLoop_preserves : ∀ (up : List Response) (chunks : List (List Nat))
    (st : SessionState), st.headersSent = true →
    (fetchLoop up chunks st).status = st.status ∧
    (fetchLoop up chunks st).headersSent = true ∧
    ∃ suf, (fetchLoop up chunks st).body = st.body ++ suf := by
  intro up
  induction up with
  | nil => intro chunks st hs; exact ⟨rfl, hs, [], by simp [fetchLoop]⟩
  | cons r rest ih =>
    intro chunks st hs
    cases r with
    | redirect loc => exact ih chunks st hs
    | terminal s =>
      simp only [fetchLoop]
      by_cases hbad : s ≠ 200 ∧ s ≠ 206
      · rw [if_pos hbad, if_pos hs]
        exact ⟨rfl, hs, [], by simp [resEndText]⟩
      · rw [if_neg hbad]
        exact ⟨rfl, hs, (runRealigner chunks []).1.flatten, rfl⟩

/-- Claim C9: on every GET /stream request that reaches the streaming
step, the server writes a 200 response header and exactly two synthesized
188-byte packets (a minimal PAT and a minimal PMT, each beginning with
0x47, 376 bytes in total) to the client before the upstream connection is
attempted, so the HTTP status seen by the client is 200 regardless of the
upstream outcome: the status is 200 and the body starts with the two
packets for every upstream script, and when no upstream response ever
arrives the body is exactly the two packets. -/
theorem C9_initial_packets_and_status :
    (∀ (up : List Response) (chunks : List (List Nat)),
      (streamTS_run up chunks).status = some 200 ∧
      (streamTS_run up chunks).headersSent = true ∧
      (streamTS_run up chunks).body.take 376 = initialPackets) ∧
    (streamTS_run [] []).body = initialPackets ∧
    initialPackets.length = 376 ∧
    (initialPackets.take 188).length = 188 ∧ (initialPackets.take 188).head? = some 0x47 ∧
    (initialPackets.drop 188).length = 188 ∧ (initialPackets.drop 188).head? = some 0x47 := by
  refine ⟨?_, by decide, by decide, by decide, by decide, by decide, by decide⟩
  intro up chunks
  have hstart : (resWrite initialPackets (resWriteHead 200 sessionStart)).headersSent = true := by
    decide
  obtain ⟨h1, h2, suf, h3⟩ := fetchLoop_preserves up chunks _ hstart
  refine ⟨?_, h2, ?_⟩
  · rw [streamTS_run, h1]; decide
  · rw [streamTS_run, h3]
    have hbody : (resWrite initialPackets (resWriteHead 200 sessionStart)).body
        = initialPackets := by decide
    rw [hbody]
    have hlen : initialPackets.length = 376 := by decide
    rw [show (376 : Nat) = initialPackets.length from hlen.symm]
    exact List.take_left _ _

/-- Claim C3, counterexample: with the upstream answering a terminal 404,
the client still sees status 200 (the headers were already sent before the
upstream attempt), not 502. -/
theorem C3_counterexample :
    (streamTS_run [Response.terminal 404] []).status = some 200 ∧
    (streamTS_run [Response.terminal 404] []).status ≠ some 502 := by
  constructor
  · decide
  · decide

/-- Claim C3, amended: on an upstream terminal status other than 200/206
(after any chain of redirects), the current server does not send 502: the
200 header and the two initial packets were already sent before the
upstream attempt, so the guarded 502 writeHead is unreachable and the
session merely appends a Bad Gateway trailer and ends the response,
leaving the status at 200.  The second half of the claim holds: once
headers have been sent the session only ends the response and never
changes the status code. -/
theorem C3_bad_upstream_keeps_200 (rs : List Response) (s : Nat)
    (chunks : List (List Nat))
    (hred : ∀ r ∈ rs, ∃ loc, r = Response.redirect loc)
    (hs1 : s ≠ 200) (hs2 : s ≠ 206) :
    streamTS_run (rs ++ [Response.terminal s]) chunks =
      { status := some 200, headersSent := true, body := initialPackets,
        trailer := ["Bad Gateway"], ended := true } := by
  rw [streamTS_run]
  induction rs with
  | nil =>
    simp only [List.nil_append, fetchLoop]
    rw [if_pos ⟨hs1, hs2⟩]
    have hsent : (resWrite initialPackets (resWriteHead 200 sessionStart)).headersSent
        = true := by decide
    rw [if_pos hsent]
    decide
  | cons r rest ih =>
    obtain ⟨loc, rfl⟩ := hred r (by simp)
    simp only [List.cons_append, fetchLoop]
    exact ih (fun q hq => hred q (by simp [hq]))

theorem C3_witness :
    (∀ r ∈ ([] : List Response), ∃ loc, r = Response.redirect loc) ∧
    (404 : Nat) ≠ 200 ∧ (404 : Nat) ≠ 206 ∧
    streamTS_run ([] ++ [Response.terminal 404]) [] =
      { status := some 200, headersSent := true, body := initialPackets,
        trailer := ["Bad Gateway"], ended := true } :=
  ⟨by simp, by decide, by decide,
    C3_bad_upstream_keeps_200 [] 404 [] (by simp) (by decide) (by decide)⟩

/-! ## Schedule data model (section 3 of the spec; src/app/server.js)

A date-valued JSON field is absent (or the empty string, which is falsy in
JavaScript exactly like an absent field), present but unparseable (new
Date gives an Invalid Date whose comparisons are all false), or present
and parsing to a timestamp in milliseconds. -/

inductive DateField where
  | absent
  | invalid
  | valid (ms : Nat)
deriving DecidableEq

/-- JavaScript truthiness of the raw field value. -/
def truthyD : DateField → Bool
  | DateField.absent => false
  | _ => true

/-- new Date(field): some timestamp, or none for NaN (Invalid Date). -/
def parseD : DateField → Option Nat
  | DateField.valid ms => some ms
  | _ => none

/-- JavaScript truthiness of an optional string (absent and empty are falsy). -/
def truthyStr : Option String → Bool
  | none => false
  | some s => !(s == "")

structure Program where
  start_dt : DateField
  stop_dt : DateField
  stream_url : Option String
  is_placeholder : Bool
  program_name : String
deriving DecidableEq

structure Channel where
  id : String
  channel_name : String
  programs : List Program
deriving DecidableEq

structure PatternData where
  category : String
  service_channels : List Channel
deriving DecidableEq

/-- The schedule document: Object.entries order is the list order.
The pre-formatted guide strings (start_str, stop_str), descriptions and
icon URLs carried by the JSON are not used by any verified claim and are
omitted from the model. -/
abbrev Schedule := List (String × PatternData)

/-! ## UTC window arithmetic (fillProgramGaps, src/app/server.js 216-224)

setUTCDate(getUTCDate() - 1) subtracts exactly one day of milliseconds,
and setUTCHours(0,0,0,0) truncates to the enclosing UTC midnight, so the
window start is the midnight opening the previous UTC day and the window
end is the last millisecond of the seventh day ahead.  The embedding works
in milliseconds directly; theorems assume now is at least one day past the
epoch, matching every date the server can observe. -/

def MS_PER_DAY : Nat := 86400000

/-- oneDayAgo: midnight UTC of the day before now. -/
def windowStartMs (now : Nat) : Nat :=
  ((now - MS_PER_DAY) / MS_PER_DAY) * MS_PER_DAY

/-- sevenDaysAhead: 23:59:59.999 UTC of the seventh day after now. -/
def windowEndMs (now : Nat) : Nat :=
  ((now + 7 * MS_PER_DAY) / MS_PER_DAY) * MS_PER_DAY + (MS_PER_DAY - 1)

/-- A synthesized placeholder program, as built by fillProgramGaps. -/
def mkPlaceholder (s e : Nat) (name : String) : Program :=
  { start_dt := DateField.valid s, stop_dt := DateField.valid e,
    stream_url := none, is_placeholder := true, program_name := name }

/-- Comparator used for the model of Array.prototype.sort on start
dates: a stable insertion by parsed start, keeping the incoming order
when either date fails to parse (the JS comparator yields NaN there,
which V8 treats as equal).  No verified claim depends on the order of a
channel with unsortable or out-of-order programs. -/
def startLe (a b : Program) : Bool :=
  match parseD a.start_dt, parseD b.start_dt with
  | some x, some y => decide (x ≤ y)
  | _, _ => true

def insertBy (le : Program → Program → Bool) (a : Program) : List Program → List Program
  | [] => [a]
  | b :: bs => if le a b then a :: b :: bs else b :: insertBy le a bs

def sortByStart (ps : List Program) : List Program :=
  ps.foldr (insertBy startLe) []

/-- Gap placeholders between consecutive sorted programs: one is inserted
exactly when both boundary dates parse and the earlier stop is strictly
before the later start (an Invalid Date comparison is false, so no
placeholder is created and toISOString is never reached on an invalid
date). -/
def fillBetween (channelName : String) : List Program → List Program
  | [] => []
  | [p] => [p]
  | p :: q :: rest =>
    match parseD p.stop_dt, parseD q.start_dt with
    | some ps, some qs =>
      if ps < qs then
        p :: mkPlaceholder ps qs (channelName ++ " - No Programming")
          :: fillBetween channelName (q :: rest)
      else p :: fillBetween channelName (q :: rest)
    | _, _ => p :: fillBetween channelName (q :: rest)

/-- fillProgramGaps (src/app/server.js lines 216-312). -/
def fillProgramGaps (programs : List Program) (channelName : String) (now : Nat) :
    List Program :=
  match programs with
  | [] => [mkPlaceholder (windowStartMs now) (windowEndMs now) "No Events Scheduled"]
  | _ =>
    let sorted := sortByStart programs
    let lead : List Program :=
      match sorted.head? with
      | some first =>
        match parseD first.start_dt with
        | some fs =>
          if windowStartMs now < fs then
            [mkPlaceholder (windowStartMs now) fs (channelName ++ " - No Programming")]
          else []
        | none => []
      | none => []
    let trail : List Program :=
      match sorted.getLast? with
      | some last =>
        match parseD last.stop_dt with
        | some ls =>
          if ls < windowEndMs now then
            [mkPlaceholder ls (windowEndMs now) (channelName ++ " - No Programming")]
          else []
        | none => []
      | none => []
    lead ++ fillBetween channelName sorted ++ trail

/-! ## Event resolution (findChannelAndEvent, src/app/server.js 149-194) -/

/-- The active-event test of the resolution scan: programs with falsy
start_dt or stop_dt are skipped, then startDt <= now && now < stopDt with
Invalid Date comparisons false. -/
def activeAt (t : Nat) (p : Program) : Bool :=
  truthyD p.start_dt && truthyD p.stop_dt &&
    (match parseD p.start_dt, parseD p.stop_dt with
     | some s, some e => decide (s ≤ t) && decide (t < e)
     | _, _ => false)

/-- The scan over the gap-filled program list: first active entry wins. -/
def findActive (ps : List Program) (t : Nat) : Option Program :=
  ps.find? (activeAt t)

/-! ## Stream-URL fallback (src/app/server.js 479-511) -/

/-- Eligibility for the fallback scan: a truthy stream_url and not a
placeholder. -/
def eligible (p : Program) : Bool :=
  truthyStr p.stream_url && !p.is_placeholder

/-- JavaScript Date comparison a > b: false unless both operands parse
(a NaN comparison is always false). -/
def oGt : Option Nat → Option Nat → Bool
  | some x, some y => decide (y < x)
  | _, _ => false

/-- new Date(p.stop_dt) > new Date(m.stop_dt). -/
def dGtStop (p m : Program) : Bool :=
  oGt (parseD p.stop_dt) (parseD m.stop_dt)

/-- The fallback loop over channel.programs: the first eligible program
becomes the incumbent, and a later eligible program replaces it only when
its stop date parses strictly greater than the incumbent stop date. -/
def fallbackScan : List Program → Option Program → Option Program
  | [], acc => acc
  | p :: ps, acc =>
    if eligible p then
      match acc with
      | none => fallbackScan ps (some p)
      | some m => if dGtStop p m then fallbackScan ps (some p) else fallbackScan ps (some m)
    else fallbackScan ps acc

/-- The streamEvent selection of the /stream route: when the resolved
event is a placeholder or lacks a truthy stream_url, the fallback scan
chooses the stream source while the resolved event itself is kept; when
no candidate exists the route answers 503. -/
def streamSelect (ch : Channel) (ev : Program) : Option (Program × Program) :=
  if ev.is_placeholder || !truthyStr ev.stream_url then
    (fallbackScan ch.programs none).map (fun m => (m, ev))
  else some (ev, ev)

/-- Modelled from the spec words of claim C4 (for comparison with the
code): among the non-placeholder programs carrying a stream_url, exclude
those whose stop_dt is absent or unparseable and pick the one with the
latest stop_dt. -/
def specFallback (ps : List Program) : Option Program :=
  (ps.filter (fun p => eligible p && (parseD p.stop_dt).isSome)).foldl
    (fun acc p =>
      match acc with
      | none => some p
      | some m => if dGtStop p m then some p else some m) none

/-! ## Percent decoding (decodeURIComponent) and channel matching -/

def hexVal (c : Char) : Option Nat :=
  if '0' ≤ c ∧ c ≤ '9' then some (c.toNat - '0'.toNat)
  else if 'a' ≤ c ∧ c ≤ 'f' then some (c.toNat - 'a'.toNat + 10)
  else if 'A' ≤ c ∧ c ≤ 'F' then some (c.toNat - 'A'.toNat + 10)
  else none

/-- decodeURIComponent on characters that decode to single bytes (all the
names appearing in the claims are ASCII); none models the URIError thrown
on a malformed escape. -/
def pctDecode : List Char → Option (List Char)
  | [] => some []
  | c :: rest =>
    if c = '%' then
      match rest with
      | a :: b :: rest2 =>
        match hexVal a, hexVal b with
        | some x, some y => (pctDecode rest2).map (fun d => Char.ofNat (16 * x + y) :: d)
        | _, _ => none
      | _ => none
    else (pctDecode rest).map (fun d => c :: d)

/-- encodeURIComponent restricted to what the claims need: the percent
character escapes to %25 and every other (unreserved) character passes
through. -/
def pctEncode : List Char → List Char
  | [] => []
  | c :: rest => if c = '%' then '%' :: '2' :: '5' :: pctEncode rest else c :: pctEncode rest

/-- The per-channel match test of findChannelAndEvent: channel_name is
compared against the decoded identifier, id against the identifier as it
was passed in (already decoded once by the route). -/
def chMatch (dec cid : List Char) (ch : Channel) : Bool :=
  (ch.channel_name.toList == dec) || (ch.id.toList == cid)

/-- All service channels of the document in iteration order. -/
def channelsOf (sched : Schedule) : List Channel :=
  (sched.map (fun kv => kv.2.service_channels)).flatten

/-! ## The /stream route (src/app/server.js 457-532) -/

inductive StreamResult where
  | uriError
  | channelNotFound
  | noActiveEvent
  | noStream
  | streaming (url : Option String) (ev : Program)
deriving DecidableEq

/-- The tail of the /stream route once the channel is found: the
gap-filled programs are scanned for the active event at now, and the
stream source is chosen by streamSelect. -/
def routeOnChannel (ch : Channel) (now : Nat) : StreamResult :=
  match findActive (fillProgramGaps ch.programs ch.channel_name now) now with
  | none => StreamResult.noActiveEvent
  | some ev =>
    match streamSelect ch ev with
    | none => StreamResult.noStream
    | some (m, e) => StreamResult.streaming m.stream_url e

/-- Channel lookup of findChannelAndEvent: the already once-decoded
identifier is decoded a second time, and the first channel matching by
decoded channel_name or by raw id wins. -/
def routeOnCid (sched : Schedule) (cid : List Char) (now : Nat) : StreamResult :=
  match pctDecode cid with
  | none => StreamResult.uriError
  | some dec =>
    match (channelsOf sched).find? (chMatch dec cid) with
    | none => StreamResult.channelNotFound
    | some ch => routeOnChannel ch now

/-- GET /stream/{seg}.ts: the route decodes the path segment once and
hands the result to the resolver. -/
def streamRoute (sched : Schedule) (seg : List Char) (now : Nat) : StreamResult :=
  match pctDecode seg with
  | none => StreamResult.uriError
  | some cid => routeOnCid sched cid now

theorem streamRoute_decode (sched : Schedule) (seg cid : List Char) (now : Nat)
    (h : pctDecode seg = some cid) : streamRoute sched seg now = routeOnCid sched cid now := by
  simp only [streamRoute, h]

theorem routeOnCid_found (sched : Schedule) (cid dec : List Char) (now : Nat) (ch : Channel)
    (h1 : pctDecode cid = some dec)
    (h2 : (channelsOf sched).find? (chMatch dec cid) = some ch) :
    routeOnCid sched cid now = routeOnChannel ch now := by
  simp only [routeOnCid, h1, h2]

theorem routeOnChannel_noStream (ch : Channel) (now : Nat) (ev : Program)
    (h1 : findActive (fillProgramGaps ch.programs ch.channel_name now) now = some ev)
    (h2 : streamSelect ch ev = none) : routeOnChannel ch now = StreamResult.noStream := by
  simp only [routeOnChannel, h1, h2]

/-! ## The /epg.xml route (src/app/server.js 380-454) -/

/-- A programme element: the synthetic hidden event written for every
channel, or a real (non-placeholder) stored program. -/
inductive EpgEntry where
  | hidden (channel : String) (startMs stopMs : Nat)
  | real (channel : String) (p : Program)
deriving DecidableEq

/-- The channel list of epg.xml: only channels with at least one program
are listed. -/
def epgChannelIds (sched : Schedule) : List String :=
  (sched.map (fun kv =>
    (kv.2.service_channels.filter (fun ch => !ch.programs.isEmpty)).map
      (fun ch => ch.channel_name))).flatten

/-- The hidden event start: midnight UTC one day ago, the same value as
the gap-filling window start; its stop is 30 minutes later
(setUTCMinutes(30) on a midnight date). -/
def hiddenStartMs (now : Nat) : Nat := windowStartMs now

def hiddenStopMs (now : Nat) : Nat := windowStartMs now + 30 * 60000

/-- The programme list of epg.xml: for every channel (with or without
programs) one hidden event, then the stored programs with placeholders
filtered out.  Gap-filling is not applied on this route. -/
def epgProgrammes (sched : Schedule) (now : Nat) : List EpgEntry :=
  ((sched.map (fun kv =>
    kv.2.service_channels.map (fun ch =>
      EpgEntry.hidden ch.channel_name (hiddenStartMs now) (hiddenStopMs now)
        :: (ch.programs.filter (fun p => !p.is_placeholder)).map
            (EpgEntry.real ch.channel_name)))).flatten).flatten

/-! ## Schedule store (loadSchedule, src/app/server.js 17-33) -/

def SCHEDULE_CACHE_TTL : Nat := 5000

structure StoreState where
  scheduleCache : Option Schedule
  lastScheduleLoad : Nat
deriving DecidableEq

/-- The outcome of reading and parsing the external schedule file. -/
inductive ReadResult where
  | ok (doc : Schedule)
  | fail
deriving DecidableEq

/-- The try block of loadSchedule: success replaces cache and timestamp,
failure returns the previous cache or the empty document, leaving state
untouched.  The third component records whether the external file was
read.  (A parsed document is a JSON object and hence truthy, so the cache
is modelled as Option.) -/
def loadAttempt (st : StoreState) (now : Nat) (file : ReadResult) :
    Schedule × StoreState × Bool :=
  match file with
  | ReadResult.ok doc =>
    (doc, { scheduleCache := some doc, lastScheduleLoad := now }, true)
  | ReadResult.fail =>
    (match st.scheduleCache with | some c => c | none => [], st, true)

/-- loadSchedule: a truthy cache younger than the TTL is returned without
touching the file. -/
def loadSchedule (st : StoreState) (now : Nat) (file : ReadResult) :
    Schedule × StoreState × Bool :=
  match st.scheduleCache with
  | some c =>
    if now - st.lastScheduleLoad < SCHEDULE_CACHE_TTL then (c, st, false)
    else loadAttempt st now file
  | none => loadAttempt st now file

/-! ### Window arithmetic lemmas -/

theorem windowStartMs_le (now : Nat) : windowStartMs now ≤ now := by
  have h := Nat.div_mul_le_self (now - MS_PER_DAY) MS_PER_DAY
  simp only [windowStartMs]
  omega

theorem windowStartMs_add_day_le (now : Nat) (h : MS_PER_DAY ≤ now) :
    windowStartMs now + MS_PER_DAY ≤ now := by
  have h2 := Nat.div_mul_le_self (now - MS_PER_DAY) MS_PER_DAY
  simp only [windowStartMs]
  omega

theorem lt_windowEndMs (now : Nat) : now < windowEndMs now := by
  have h1 := Nat.div_add_mod (now + 7 * MS_PER_DAY) MS_PER_DAY
  have h2 : (now + 7 * MS_PER_DAY) % MS_PER_DAY < MS_PER_DAY :=
    Nat.mod_lt _ (by simp [MS_PER_DAY])
  simp only [windowEndMs, MS_PER_DAY] at *
  omega

/-! ### Claim C8: the schedule store -/

/-- Claim C8: loadSchedule never raises to its caller (it is a total
function of the model): with a cached document younger than the TTL it
returns the cache without reading the external file; on read or parse
failure it returns the previous cached document unchanged if one exists,
else the empty document; a successful read past the TTL replaces cache and
timestamp. -/
theorem C8_loadSchedule_behaviour (st : StoreState) (now : Nat) (file : ReadResult) :
    (∀ c, st.scheduleCache = some c → now - st.lastScheduleLoad < SCHEDULE_CACHE_TTL →
      loadSchedule st now file = (c, st, false)) ∧
    (file = ReadResult.fail → ∀ c, st.scheduleCache = some c →
      (loadSchedule st now file).1 = c ∧ (loadSchedule st now file).2.1 = st) ∧
    (file = ReadResult.fail → st.scheduleCache = none →
      loadSchedule st now file = ([], st, true)) ∧
    (∀ doc, file = ReadResult.ok doc →
      (SCHEDULE_CACHE_TTL ≤ now - st.lastScheduleLoad ∨ st.scheduleCache = none) →
      loadSchedule st now file
        = (doc, { scheduleCache := some doc, lastScheduleLoad := now }, true)) := by
  refine ⟨?_, ?_, ?_, ?_⟩
  · intro c hc hlt
    simp [loadSchedule, hc, hlt]
  · intro hf c hc
    by_cases h : now - st.lastScheduleLoad < SCHEDULE_CACHE_TTL
    · simp [loadSchedule, hc, h]
    · simp [loadSchedule, hc, h, loadAttempt, hf]
  · intro hf hn
    simp [loadSchedule, hn, loadAttempt, hf]
  · intro doc hdoc hor
    cases hcache : st.scheduleCache with
    | none => simp [loadSchedule, hcache, loadAttempt, hdoc]
    | some c =>
      have hns : ¬ (now - st.lastScheduleLoad < SCHEDULE_CACHE_TTL) := by
        rcases hor with h | h
        · omega
        · rw [hcache] at h; cases h
      simp [loadSchedule, hcache, hns, loadAttempt, hdoc]

theorem C8_witness :
    ((⟨some [], 0⟩ : StoreState).scheduleCache = some []) ∧
    ((1000 : Nat) - (⟨some [], 0⟩ : StoreState).lastScheduleLoad < SCHEDULE_CACHE_TTL) ∧
    loadSchedule ⟨some [], 0⟩ 1000 ReadResult.fail = ([], ⟨some [], 0⟩, false) :=
  ⟨rfl, by decide,
    (C8_loadSchedule_behaviour ⟨some [], 0⟩ 1000 ReadResult.fail).1 [] rfl (by decide)⟩

/-! ### Claim C5: empty channel resolves to one full-window placeholder -/

/-- Claim C5: for a channel with zero programs, gap-filling produces
exactly one PlaceholderProgram whose start and stop span the full
visibility window (midnight UTC one day back through the last millisecond
of the seventh day ahead), the resolution instant always lies inside that
window, and active-event resolution at any instant inside the window
returns that placeholder. -/
theorem C5_empty_channel_full_window (name : String) (now t : Nat)
    (_hday : MS_PER_DAY ≤ now)
    (h1 : windowStartMs now ≤ t) (h2 : t < windowEndMs now) :
    fillProgramGaps [] name now
      = [mkPlaceholder (windowStartMs now) (windowEndMs now) "No Events Scheduled"] ∧
    (mkPlaceholder (windowStartMs now) (windowEndMs now)
      "No Events Scheduled").is_placeholder = true ∧
    windowStartMs now ≤ now ∧ now < windowEndMs now ∧
    findActive (fillProgramGaps [] name now) t
      = some (mkPlaceholder (windowStartMs now) (windowEndMs now) "No Events Scheduled") := by
  refine ⟨rfl, rfl, windowStartMs_le now, lt_windowEndMs now, ?_⟩
  simp [findActive, fillProgramGaps, activeAt, mkPlaceholder, truthyD, parseD, h1, h2]

theorem C5_witness :
    MS_PER_DAY ≤ 172800000 ∧ windowStartMs 172800000 ≤ 172800000 ∧
    172800000 < windowEndMs 172800000 ∧
    (fillProgramGaps [] "X" 172800000
        = [mkPlaceholder (windowStartMs 172800000) (windowEndMs 172800000)
            "No Events Scheduled"] ∧
      (mkPlaceholder (windowStartMs 172800000) (windowEndMs 172800000)
        "No Events Scheduled").is_placeholder = true ∧
      windowStartMs 172800000 ≤ 172800000 ∧ 172800000 < windowEndMs 172800000 ∧
      findActive (fillProgramGaps [] "X" 172800000) 172800000
        = some (mkPlaceholder (windowStartMs 172800000) (windowEndMs 172800000)
            "No Events Scheduled")) :=
  ⟨by decide, by decide, by decide,
    C5_empty_channel_full_window "X" 172800000 172800000 (by decide) (by decide) (by decide)⟩

/-! ### Claim C7: zero-program channel on /stream and /epg.xml -/

/-- The one-channel schedule used for claim C7: a single group whose only
channel has zero programs. -/
def emptySched : Schedule :=
  [("group", { category := "cat", service_channels := [⟨"id1", "Empty1", []⟩] })]

/-- Claim C7, counterexample: with the schedule holding only the
zero-program channel Empty1, GET /stream/Empty1.ts does answer 503, but
epg.xml does not list Empty1 at all in its channel elements (only channels
with at least one program are listed), so the claim that epg.xml still
lists the channel with a window-spanning placeholder programme is false. -/
theorem C7_counterexample :
    streamRoute emptySched "Empty1".toList 172800000 = StreamResult.noStream ∧
    epgChannelIds emptySched = [] := by
  constructor
  · decide
  · decide

theorem C7_pctDecode_plain : ∀ (l : List Char), (∀ c ∈ l, c ≠ '%') → pctDecode l = some l := by
  intro l
  induction l with
  | nil => intro _; rfl
  | cons c rest ih =>
    intro h
    have hc : c ≠ '%' := h c (by simp)
    have hr := ih (fun x hx => h x (by simp [hx]))
    rw [pctDecode.eq_def]
    simp [hc, hr]

/-- Claim C7, amended: for a channel with zero programs (alone in its
schedule under a percent-free name), GET /stream/{channel}.ts returns 503
(no stream source), while GET /epg.xml omits the channel from its channel
list — only channels with at least one program are listed — and its
programme section carries exactly one 30-minute hidden-event entry for the
channel rather than a placeholder spanning the visibility window
(gap-filling is not applied on the epg.xml route). -/
theorem C7_empty_channel_routes (gname cat cid name : String) (now : Nat)
    (hday : MS_PER_DAY ≤ now)
    (hplain : ∀ c ∈ name.toList, c ≠ '%') :
    streamRoute [(gname, { category := cat, service_channels := [⟨cid, name, []⟩] })]
        name.toList now = StreamResult.noStream ∧
    epgChannelIds [(gname, { category := cat, service_channels := [⟨cid, name, []⟩] })]
        = [] ∧
    epgProgrammes [(gname, { category := cat, service_channels := [⟨cid, name, []⟩] })] now
        = [EpgEntry.hidden name (hiddenStartMs now) (hiddenStopMs now)] ∧
    hiddenStopMs now - hiddenStartMs now = 1800000 ∧
    hiddenStopMs now < windowEndMs now := by
  have hdec := C7_pctDecode_plain name.toList hplain
  have hws := windowStartMs_le now
  have hwe := lt_windowEndMs now
  refine ⟨?_, by simp [epgChannelIds], by simp [epgProgrammes], ?_, ?_⟩
  · have hfind : (channelsOf [(gname, (⟨cat, [⟨cid, name, []⟩]⟩ : PatternData))]).find?
        (chMatch name.toList name.toList) = some ⟨cid, name, []⟩ := by
      simp [channelsOf, chMatch]
    have hact : findActive (fillProgramGaps ([] : List Program) name now) now
        = some (mkPlaceholder (windowStartMs now) (windowEndMs now) "No Events Scheduled") := by
      simp [findActive, fillProgramGaps, activeAt, mkPlaceholder, truthyD, parseD, hws, hwe]
    have hsel : streamSelect ⟨cid, name, []⟩
        (mkPlaceholder (windowStartMs now) (windowEndMs now) "No Events Scheduled") = none := by
      simp [streamSelect, mkPlaceholder, fallbackScan, truthyStr]
    exact (streamRoute_decode _ _ _ _ hdec).trans
      ((routeOnCid_found _ _ _ _ _ hdec hfind).trans
        (routeOnChannel_noStream _ _ _ hact hsel))
  · simp only [hiddenStartMs, hiddenStopMs]
    omega
  · have hle := windowStartMs_add_day_le now hday
    simp only [hiddenStopMs, MS_PER_DAY] at *
    omega

theorem C7_witness :
    MS_PER_DAY ≤ 172800000 ∧ (∀ c ∈ "Empty1".toList, c ≠ '%') ∧
    (streamRoute [("group", ⟨"cat", [⟨"id1", "Empty1", []⟩]⟩)]
        "Empty1".toList 172800000 = StreamResult.noStream ∧
      epgChannelIds [("group", ⟨"cat", [⟨"id1", "Empty1", []⟩]⟩)] = [] ∧
      epgProgrammes [("group", ⟨"cat", [⟨"id1", "Empty1", []⟩]⟩)] 172800000
        = [EpgEntry.hidden "Empty1" (hiddenStartMs 172800000) (hiddenStopMs 172800000)] ∧
      hiddenStopMs 172800000 - hiddenStartMs 172800000 = 1800000 ∧
      hiddenStopMs 172800000 < windowEndMs 172800000) :=
  ⟨by decide, by decide,
    C7_empty_channel_routes "group" "cat" "id1" "Empty1" 172800000 (by decide) (by decide)⟩

/-! ### Claim C4: the stream-URL fallback -/

theorem oGt_irrefl (u : Option Nat) : oGt u u = false := by
  cases u <;> simp [oGt]

theorem oGt_asymm {u v : Option Nat} (h : oGt u v = true) : oGt v u = false := by
  cases u <;> cases v <;> simp [oGt] at h ⊢ <;> omega

theorem oGt_trans {u v w : Option Nat} (h1 : oGt u v = true) (h2 : oGt v w = true) :
    oGt u w = true := by
  cases u <;> cases v <;> cases w <;> simp [oGt] at h1 h2 ⊢ <;> omega

theorem oGt_le_trans {u v w : Option Nat} (h1 : oGt u w = false) (h2 : oGt v w = true) :
    oGt u v = false := by
  cases u <;> cases v <;> cases w <;> simp [oGt] at h1 h2 ⊢ <;> omega

theorem dGtStop_irrefl (m : Program) : dGtStop m m = false := oGt_irrefl _

theorem dGtStop_asymm {a b : Program} (h : dGtStop a b = true) : dGtStop b a = false :=
  oGt_asymm h

theorem dGtStop_trans {m p a : Program} (h1 : dGtStop m p = true) (h2 : dGtStop p a = true) :
    dGtStop m a = true := oGt_trans h1 h2

theorem dGtStop_le_trans {p m a : Program} (h1 : dGtStop p a = false)
    (h2 : dGtStop m a = true) : dGtStop p m = false := oGt_le_trans h1 h2

/-- The fallback scan result dominates every eligible program it saw
(no eligible program compares strictly greater), and either is the
starting incumbent or strictly beats it. -/
theorem fallbackScan_inv : ∀ (ps : List Program) (acc : Option Program) (m : Program),
    fallbackScan ps acc = some m →
    (∀ p ∈ ps, eligible p = true → dGtStop p m = false) ∧
    (∀ a, acc = some a → (m = a ∨ dGtStop m a = true)) := by
  intro ps
  induction ps with
  | nil =>
    intro acc m h
    simp only [fallbackScan] at h
    refine ⟨by simp, fun a ha => ?_⟩
    rw [ha] at h
    exact Or.inl (Option.some.inj h).symm
  | cons p ps ih =>
    intro acc m h
    simp only [fallbackScan] at h
    by_cases he : eligible p = true
    · rw [if_pos he] at h
      cases acc with
      | none =>
        have hi := ih (some p) m h
        refine ⟨?_, by simp⟩
        intro q hq hqe
        rcases List.mem_cons.mp hq with rfl | hq'
        · rcases hi.2 q rfl with heq | hgt
          · rw [heq]; exact dGtStop_irrefl q
          · exact dGtStop_asymm hgt
        · exact hi.1 q hq' hqe
      | some a0 =>
        have h2 : (if dGtStop p a0 = true then fallbackScan ps (some p)
            else fallbackScan ps (some a0)) = some m := h
        by_cases hgt : dGtStop p a0 = true
        · rw [if_pos hgt] at h2
          have hi := ih (some p) m h2
          constructor
          · intro q hq hqe
            rcases List.mem_cons.mp hq with rfl | hq'
            · rcases hi.2 q rfl with heq | hgt2
              · rw [heq]; exact dGtStop_irrefl q
              · exact dGtStop_asymm hgt2
            · exact hi.1 q hq' hqe
          · intro a ha
            injection ha with ha'
            subst ha'
            rcases hi.2 p rfl with heq | hgt2
            · right; rw [heq]; exact hgt
            · right; exact dGtStop_trans hgt2 hgt
        · have hgtf : dGtStop p a0 = false := by
            revert hgt; cases dGtStop p a0 <;> simp
          rw [if_neg hgt] at h2
          have hi := ih (some a0) m h2
          constructor
          · intro q hq hqe
            rcases List.mem_cons.mp hq with rfl | hq'
            · rcases hi.2 a0 rfl with heq | hgt2
              · rw [← heq] at hgtf; exact hgtf
              · exact dGtStop_le_trans hgtf hgt2
            · exact hi.1 q hq' hqe
          · intro a ha
            injection ha with ha'
            subst ha'
            exact hi.2 a0 rfl
    · rw [if_neg he] at h
      have hi := ih acc m h
      constructor
      · intro q hq hqe
        rcases List.mem_cons.mp hq with rfl | hq'
        · exact absurd hqe he
        · exact hi.1 q hq' hqe
      · exact hi.2

/-- The fallback scan result is the starting incumbent or an eligible
member of the list. -/
theorem fallbackScan_mem : ∀ (ps : List Program) (acc : Option Program) (m : Program),
    fallbackScan ps acc = some m → acc = some m ∨ (m ∈ ps ∧ eligible m = true) := by
  intro ps
  induction ps with
  | nil =>
    intro acc m h
    simp only [fallbackScan] at h
    exact Or.inl h
  | cons p ps ih =>
    intro acc m h
    simp only [fallbackScan] at h
    by_cases he : eligible p = true
    · rw [if_pos he] at h
      cases acc with
      | none =>
        rcases ih (some p) m h with hacc | ⟨hm, hme⟩
        · injection hacc with ha'
          exact Or.inr ⟨by rw [ha']; simp, by rw [← ha']; exact he⟩
        · exact Or.inr ⟨by simp [hm], hme⟩
      | some a0 =>
        have h2 : (if dGtStop p a0 = true then fallbackScan ps (some p)
            else fallbackScan ps (some a0)) = some m := h
        by_cases hgt : dGtStop p a0 = true
        · rw [if_pos hgt] at h2
          rcases ih (some p) m h2 with hacc | ⟨hm, hme⟩
          · injection hacc with ha'
            exact Or.inr ⟨by rw [ha']; simp, by rw [← ha']; exact he⟩
          · exact Or.inr ⟨by simp [hm], hme⟩
        · rw [if_neg hgt] at h2
          rcases ih (some a0) m h2 with hacc | ⟨hm, hme⟩
          · exact Or.inl hacc
          · exact Or.inr ⟨by simp [hm], hme⟩
    · rw [if_neg he] at h
      rcases ih acc m h with hacc | ⟨hm, hme⟩
      · exact Or.inl hacc
      · exact Or.inr ⟨by simp [hm], hme⟩

theorem fallbackScan_some_ne_none : ∀ (ps : List Program) (x : Program),
    fallbackScan ps (some x) ≠ none := by
  intro ps
  induction ps with
  | nil => intro x h; simp [fallbackScan] at h
  | cons p ps ih =>
    intro x h
    simp only [fallbackScan] at h
    by_cases he : eligible p = true
    · rw [if_pos he] at h
      by_cases hgt : dGtStop p x = true
      · rw [if_pos hgt] at h; exact ih p h
      · rw [if_neg hgt] at h; exact ih x h
    · rw [if_neg he] at h; exact ih x h

theorem fallbackScan_none_iff : ∀ (ps : List Program),
    (fallbackScan ps none = none ↔ ∀ p ∈ ps, eligible p = false) := by
  intro ps
  induction ps with
  | nil => simp [fallbackScan]
  | cons p ps ih =>
    simp only [fallbackScan]
    by_cases he : eligible p = true
    · rw [if_pos he]
      constructor
      · intro h; exact absurd h (fallbackScan_some_ne_none ps p)
      · intro h; exact absurd he (by simp [h p (by simp)])
    · rw [if_neg he]
      have hef : eligible p = false := by revert he; cases eligible p <;> simp
      constructor
      · intro h q hq
        rcases List.mem_cons.mp hq with rfl | hq'
        · exact hef
        · exact (ih.mp h) q hq'
      · intro h
        exact ih.mpr (fun q hq => h q (by simp [hq]))

/-- Claim C4, amended: when the resolved event is a placeholder or lacks a
truthy stream_url, the route falls back to a program selected from
channel.programs by a left-to-right scan over the non-placeholder entries
carrying a stream_url: the first such candidate becomes the incumbent and
is replaced only by a later candidate whose stop_dt parses strictly
greater than the incumbent stop date (a comparison against an absent or
unparseable stop_dt is false).  A program with absent stop_dt is therefore
not excluded: it can be selected, and once selected is never displaced.
The selected program dominates every candidate (none compares strictly
greater), the originally resolved event is kept unchanged alongside it,
and when no candidate exists the selection is empty and the route answers
503. -/
theorem C4_fallback_selection (ch : Channel) (ev : Program)
    (hph : ev.is_placeholder = true ∨ truthyStr ev.stream_url = false) :
    (streamSelect ch ev = none ↔ ∀ p ∈ ch.programs, eligible p = false) ∧
    (∀ m e2, streamSelect ch ev = some (m, e2) →
      e2 = ev ∧ m ∈ ch.programs ∧ eligible m = true ∧
      ∀ p ∈ ch.programs, eligible p = true → dGtStop p m = false) := by
  have hcond : (ev.is_placeholder || !truthyStr ev.stream_url) = true := by
    rcases hph with h | h <;> simp [h]
  constructor
  · rw [streamSelect, if_pos hcond]
    rw [Option.map_eq_none']
    exact fallbackScan_none_iff ch.programs
  · intro m e2 hsel
    rw [streamSelect, if_pos hcond] at hsel
    rw [Option.map_eq_some'] at hsel
    obtain ⟨m0, hm0, heq⟩ := hsel
    have h1 : m0 = m := congrArg Prod.fst heq
    have h2 : ev = e2 := congrArg Prod.snd heq
    subst h1
    subst h2
    rcases fallbackScan_mem ch.programs none m0 hm0 with habs | ⟨hm, hme⟩
    · exact Option.noConfusion habs
    · exact ⟨rfl, hm, hme, (fallbackScan_inv ch.programs none m0 hm0).1⟩

/-- The fallback-eligible program with an absent stop date, used in the
claim C4 counterexample. -/
def pA : Program :=
  { start_dt := DateField.valid 0, stop_dt := DateField.absent,
    stream_url := some "a", is_placeholder := false, program_name := "A" }

/-- A later fallback-eligible program with a parseable stop date. -/
def pB : Program :=
  { start_dt := DateField.valid 0, stop_dt := DateField.valid 100,
    stream_url := some "b", is_placeholder := false, program_name := "B" }

def chC4 : Channel := { id := "id1", channel_name := "Ch", programs := [pA, pB] }

/-- Claim C4, counterexample: with an active placeholder, the code selects
pA, whose stop_dt is absent, as the fallback stream source, while the only
program with a stop_dt value carries url b, so the claimed selection
(latest stop_dt among stop_dt-carrying programs, absent stop_dt excluded)
would be pB: programs with absent stop_dt are not excluded from the
fallback. -/
theorem C4_counterexample :
    streamSelect chC4 (mkPlaceholder 0 1 "ph") = some (pA, mkPlaceholder 0 1 "ph") ∧
    specFallback chC4.programs = some pB ∧
    pA.stream_url = some "a" ∧ pB.stream_url = some "b" ∧
    pA.stop_dt = DateField.absent ∧ pA.stream_url ≠ pB.stream_url := by
  refine ⟨by decide, by decide, rfl, rfl, rfl, by decide⟩

theorem C4_witness :
    ((mkPlaceholder 0 1 "ph").is_placeholder = true ∨
      truthyStr (mkPlaceholder 0 1 "ph").stream_url = false) ∧
    ((streamSelect chC4 (mkPlaceholder 0 1 "ph") = none ↔
        ∀ p ∈ chC4.programs, eligible p = false) ∧
      (∀ m e2, streamSelect chC4 (mkPlaceholder 0 1 "ph") = some (m, e2) →
        e2 = mkPlaceholder 0 1 "ph" ∧ m ∈ chC4.programs ∧ eligible m = true ∧
        ∀ p ∈ chC4.programs, eligible p = true → dGtStop p m = false)) :=
  ⟨Or.inl rfl, C4_fallback_selection chC4 (mkPlaceholder 0 1 "ph") (Or.inl rfl)⟩

/-! ### Claim C10: double URL-decoding of the channel identifier -/

theorem pctDecode_cons_not_pct (c : Char) (rest : List Char) (hc : c ≠ '%') :
    pctDecode (c :: rest) = (pctDecode rest).map (fun d => c :: d) := by
  rw [pctDecode.eq_def]
  simp [hc]

theorem pctDecode_pct_some (a b : Char) (rest2 d : List Char)
    (h : pctDecode ('%' :: a :: b :: rest2) = some d) :
    ∃ x y d2, hexVal a = some x ∧ hexVal b = some y ∧ pctDecode rest2 = some d2 ∧
      d = Char.ofNat (16 * x + y) :: d2 := by
  have h0 : (match hexVal a, hexVal b with
      | some x, some y =>
        Option.map (fun d => Char.ofNat (16 * x + y) :: d) (pctDecode rest2)
      | _, _ => none) = some d := h
  cases hva : hexVal a with
  | none => rw [hva] at h0; simp at h0
  | some x =>
    cases hvb : hexVal b with
    | none => rw [hva, hvb] at h0; simp at h0
    | some y =>
      rw [hva, hvb] at h0
      simp only [Option.map_eq_some'] at h0
      obtain ⟨d2, hd2, hd⟩ := h0
      exact ⟨x, y, d2, rfl, rfl, hd2, hd.symm⟩

theorem pctDecode_length_le : ∀ (n : Nat) (l : List Char), l.length ≤ n →
    ∀ d, pctDecode l = some d → d.length ≤ l.length := by
  intro n
  induction n with
  | zero =>
    intro l hl d h
    have hnil : l = [] := List.length_eq_zero.mp (by omega)
    subst hnil
    simp only [pctDecode, Option.some.injEq] at h
    subst h
    simp
  | succ k ih =>
    intro l hl d h
    cases l with
    | nil =>
      simp only [pctDecode, Option.some.injEq] at h
      subst h
      simp
    | cons c rest =>
      by_cases hc : c = '%'
      · subst hc
        cases rest with
        | nil => exact Option.noConfusion h
        | cons a rest1 =>
          cases rest1 with
          | nil => exact Option.noConfusion h
          | cons b rest2 =>
            obtain ⟨x, y, d2, hva, hvb, hd2, rfl⟩ := pctDecode_pct_some a b rest2 d h
            have hlen : rest2.length ≤ k := by
              simp only [List.length_cons] at hl
              omega
            have := ih rest2 hlen d2 hd2
            simp only [List.length_cons]
            omega
      · rw [pctDecode_cons_not_pct c rest hc, Option.map_eq_some'] at h
        obtain ⟨d2, hd2, rfl⟩ := h
        have hlen : rest.length ≤ k := by
          simp only [List.length_cons] at hl
          omega
        have := ih rest hlen d2 hd2
        simp only [List.length_cons]
        omega

theorem pctDecode_shrinks : ∀ (n : Nat) (l : List Char), l.length ≤ n → '%' ∈ l →
    ∀ d, pctDecode l = some d → d.length < l.length := by
  intro n
  induction n with
  | zero =>
    intro l hl hmem d h
    have hnil : l = [] := List.length_eq_zero.mp (by omega)
    subst hnil
    simp at hmem
  | succ k ih =>
    intro l hl hmem d h
    cases l with
    | nil => simp at hmem
    | cons c rest =>
      by_cases hc : c = '%'
      · subst hc
        cases rest with
        | nil => exact Option.noConfusion h
        | cons a rest1 =>
          cases rest1 with
          | nil => exact Option.noConfusion h
          | cons b rest2 =>
            obtain ⟨x, y, d2, hva, hvb, hd2, rfl⟩ := pctDecode_pct_some a b rest2 d h
            have hle := pctDecode_length_le rest2.length rest2 (le_refl _) d2 hd2
            simp only [List.length_cons]
            omega
      · rw [pctDecode_cons_not_pct c rest hc, Option.map_eq_some'] at h
        obtain ⟨d2, hd2, rfl⟩ := h
        have hmem' : '%' ∈ rest := by
          rcases List.mem_cons.mp hmem with heq | hmem'
          · exact absurd heq.symm hc
          · exact hmem'
        have hlen : rest.length ≤ k := by
          simp only [List.length_cons] at hl
          omega
        have := ih rest hlen hmem' d2 hd2
        simp only [List.length_cons]
        omega

theorem pctDecode_pctEncode : ∀ (l : List Char), pctDecode (pctEncode l) = some l := by
  intro l
  induction l with
  | nil => rfl
  | cons c rest ih =>
    by_cases hc : c = '%'
    · subst hc
      have henc : pctEncode ('%' :: rest) = '%' :: '2' :: '5' :: pctEncode rest := by
        have h0 : pctEncode ('%' :: rest)
            = if '%' = '%' then '%' :: '2' :: '5' :: pctEncode rest
              else '%' :: pctEncode rest := rfl
        rw [h0, if_pos rfl]
      rw [henc]
      have hstep : pctDecode ('%' :: '2' :: '5' :: pctEncode rest)
          = (pctDecode (pctEncode rest)).map (fun d => Char.ofNat 37 :: d) := by
        have h0 : pctDecode ('%' :: '2' :: '5' :: pctEncode rest)
            = (match hexVal '2', hexVal '5' with
               | some x, some y =>
                 Option.map (fun d => Char.ofNat (16 * x + y) :: d) (pctDecode (pctEncode rest))
               | _, _ => none) := rfl
        have h2 : hexVal '2' = some 2 := by decide
        have h5 : hexVal '5' = some 5 := by decide
        rw [h0, h2, h5]
      rw [hstep, ih, Option.map_some']
    · have henc : pctEncode (c :: rest) = c :: pctEncode rest := by
        have h0 : pctEncode (c :: rest)
            = if c = '%' then '%' :: '2' :: '5' :: pctEncode rest
              else c :: pctEncode rest := rfl
        rw [h0, if_neg hc]
      rw [henc, pctDecode_cons_not_pct c _ hc, ih, Option.map_some']

/-- Claim C10: the /stream route URL-decodes the path identifier once
(a correctly once-encoded name reaches the resolver as the plain name),
and findChannelAndEvent decodes it a second time before comparing against
channel_name while the once-decoded form is compared against id; for every
channel whose channel_name contains a percent-encoded-looking sequence,
the twice-decoded identifier is strictly shorter than the name, so the
channel_name comparison fails and the match test degenerates to the id
comparison alone. -/
theorem C10_double_decode (pre post : List Char) (h1 h2 : Char) (d : List Char)
    (hdec : pctDecode (pre ++ '%' :: h1 :: h2 :: post) = some d) :
    pctDecode (pctEncode (pre ++ '%' :: h1 :: h2 :: post))
        = some (pre ++ '%' :: h1 :: h2 :: post) ∧
    (∀ (sched : Schedule) (now : Nat),
      streamRoute sched (pctEncode (pre ++ '%' :: h1 :: h2 :: post)) now
        = routeOnCid sched (pre ++ '%' :: h1 :: h2 :: post) now) ∧
    d ≠ pre ++ '%' :: h1 :: h2 :: post ∧
    (∀ ch : Channel, ch.channel_name.toList = pre ++ '%' :: h1 :: h2 :: post →
      chMatch d (pre ++ '%' :: h1 :: h2 :: post) ch
        = (ch.id.toList == pre ++ '%' :: h1 :: h2 :: post)) := by
  have hmem : '%' ∈ pre ++ '%' :: h1 :: h2 :: post := by simp
  have hlt := pctDecode_shrinks (pre ++ '%' :: h1 :: h2 :: post).length
    (pre ++ '%' :: h1 :: h2 :: post) (le_refl _) hmem d hdec
  have hne : d ≠ pre ++ '%' :: h1 :: h2 :: post := by
    intro heq
    rw [heq] at hlt
    exact Nat.lt_irrefl _ hlt
  refine ⟨pctDecode_pctEncode _, ?_, hne, ?_⟩
  · intro sched now
    exact streamRoute_decode sched _ _ now (pctDecode_pctEncode _)
  · intro ch hname
    simp only [chMatch]
    rw [hname]
    have hb : (pre ++ '%' :: h1 :: h2 :: post == d) = false := by
      rw [beq_eq_false_iff_ne]
      exact fun hh => hne hh.symm
    rw [hb, Bool.false_or]

theorem C10_witness :
    pctDecode (['A'] ++ '%' :: '4' :: '1' :: ([] : List Char)) = some ['A', 'A'] ∧
    (pctDecode (pctEncode (['A'] ++ '%' :: '4' :: '1' :: ([] : List Char)))
        = some (['A'] ++ '%' :: '4' :: '1' :: ([] : List Char)) ∧
      (∀ (sched : Schedule) (now : Nat),
        streamRoute sched (pctEncode (['A'] ++ '%' :: '4' :: '1' :: ([] : List Char))) now
          = routeOnCid sched (['A'] ++ '%' :: '4' :: '1' :: ([] : List Char)) now) ∧
      ['A', 'A'] ≠ ['A'] ++ '%' :: '4' :: '1' :: ([] : List Char) ∧
      (∀ ch : Channel, ch.channel_name.toList = ['A'] ++ '%' :: '4' :: '1' :: ([] : List Char) →
        chMatch ['A', 'A'] (['A'] ++ '%' :: '4' :: '1' :: ([] : List Char)) ch
          = (ch.id.toList == ['A'] ++ '%' :: '4' :: '1' :: ([] : List Char)))) :=
  ⟨by decide, C10_double_decode ['A'] [] '4' '1' ['A', 'A'] (by decide)⟩
